import Mathlib

/-!
# Verification of the dynamic page configuration engine

A shallow embedding of the page-configuration parser/validator/renderer
core (`validatePageConfig`, `validateComponentConfig`,
`validateDataSourceConfig`, `parseComponent`, `parsePageConfig`,
`isComponentTypeSupported`, `getDataBindings`, `resolveBinding`),
together with theorems settling the frozen claims about it.

JavaScript runtime values are modelled by the inductive type `JSValue`
(JSON-like data with an explicit `undefined`); JS `Map` objects are
modelled as association lists whose `set` keeps the first position of an
existing key, as the runtime does.
-/

set_option maxHeartbeats 1600000

namespace PageEngine

/-- A JavaScript runtime value, as far as the configuration engine
observes it: `null`, `undefined`, booleans, numbers, strings, arrays
and plain objects (association lists of own enumerable properties). -/
inductive JSValue where
  | null : JSValue
  | undefined : JSValue
  | bool : Bool → JSValue
  | num : Int → JSValue
  | str : String → JSValue
  | arr : List JSValue → JSValue
  | obj : List (String × JSValue) → JSValue

namespace JSValue

mutual

def beq : JSValue → JSValue → Bool
  | .null, .null => true
  | .undefined, .undefined => true
  | .bool a, .bool b => a = b
  | .num a, .num b => a = b
  | .str a, .str b => a = b
  | .arr a, .arr b => beqList a b
  | .obj a, .obj b => beqFields a b
  | _, _ => false

def beqList : List JSValue → List JSValue → Bool
  | [], [] => true
  | a :: as_, b :: bs => beq a b && beqList as_ bs
  | _, _ => false

def beqFields : List (String × JSValue) → List (String × JSValue) → Bool
  | [], [] => true
  | (k, v) :: as_, (k', v') :: bs => k = k' && beq v v' && beqFields as_ bs
  | _, _ => false

end

mutual

theorem beq_iff : ∀ a b : JSValue, beq a b = true ↔ a = b
  | .null, b => by cases b <;> simp [beq]
  | .undefined, b => by cases b <;> simp [beq]
  | .bool x, b => by cases b <;> simp [beq]
  | .num x, b => by cases b <;> simp [beq]
  | .str x, b => by cases b <;> simp [beq]
  | .arr xs, b => by
      cases b <;> simp [beq]
      exact beqList_iff xs _
  | .obj fs, b => by
      cases b <;> simp [beq]
      exact beqFields_iff fs _

theorem beqList_iff : ∀ as_ bs : List JSValue, beqList as_ bs = true ↔ as_ = bs
  | [], bs => by cases bs <;> simp [beqList]
  | a :: as_, bs => by
      cases bs with
      | nil => simp [beqList]
      | cons b bs =>
          simp only [beqList, Bool.and_eq_true, List.cons.injEq]
          exact and_congr (beq_iff a b) (beqList_iff as_ bs)

theorem beqFields_iff :
    ∀ as_ bs : List (String × JSValue), beqFields as_ bs = true ↔ as_ = bs
  | [], bs => by cases bs <;> simp [beqFields]
  | (k, v) :: as_, bs => by
      cases bs with
      | nil => simp [beqFields]
      | cons b bs =>
          obtain ⟨k', v'⟩ := b
          simp only [beqFields, Bool.and_eq_true, List.cons.injEq, Prod.mk.injEq,
            decide_eq_true_eq]
          rw [beq_iff v v', beqFields_iff as_ bs, and_assoc]

end

instance : DecidableEq JSValue := fun a b =>
  decidable_of_iff (beq a b = true) (beq_iff a b)

/-- JS truthiness: `null`, `undefined`, `false`, `0` and `""` are falsy,
everything else (including empty arrays and objects) is truthy. -/
def truthy : JSValue → Bool
  | .null => false
  | .undefined => false
  | .bool b => b
  | .num n => n ≠ 0
  | .str s => s ≠ ""
  | .arr _ => true
  | .obj _ => true

/-- The JS `typeof` operator on modelled values.  Note `typeof null`
is `"object"`, and arrays are `"object"` as well. -/
def jsTypeof : JSValue → String
  | .null => "object"
  | .undefined => "undefined"
  | .bool _ => "boolean"
  | .num _ => "number"
  | .str _ => "string"
  | .arr _ => "object"
  | .obj _ => "object"

/-- First binding of a key in an object's property list. -/
def fieldsLookup : List (String × JSValue) → String → Option JSValue
  | [], _ => none
  | (k, v) :: rest, key => if k = key then some v else fieldsLookup rest key

/-- JS property read `v[key]` on the values our code paths can reach:
objects yield the stored property (or `undefined`), arrays yield their
elements under canonical numeric keys and their `length`, and every
other read yields `undefined`.  (Reads on `null`/`undefined` throw in
JS; all reads in the embedded code are guarded, so totalising them to
`undefined` is unobservable.) -/
def getField : JSValue → String → JSValue
  | .obj fs, key => (fieldsLookup fs key).getD .undefined
  | .arr xs, key =>
      if key = "length" then .num xs.length
      else
        match key.toNat? with
        | some i => if toString i = key then (xs.getD i .undefined) else .undefined
        | none => .undefined
  | _, _ => .undefined

/-- JS `key in v`: own-property test on plain objects (the only shape
the embedded code applies it to after validation). -/
def hasField : JSValue → String → Bool
  | .obj fs, key => (fieldsLookup fs key).isSome
  | _, _ => false

theorem fieldsLookup_sizeOf {fs : List (String × JSValue)} {key : String}
    {v : JSValue} (h : fieldsLookup fs key = some v) : sizeOf v < sizeOf fs := by
  induction fs with
  | nil => simp [fieldsLookup] at h
  | cons kv rest ih =>
      obtain ⟨k, w⟩ := kv
      simp only [fieldsLookup] at h
      split at h
      · cases h
        simp
        omega
      · have := ih h
        simp
        omega

theorem getField_arr_sizeOf {v : JSValue} {key : String} {cs : List JSValue}
    (h : v.getField key = .arr cs) : sizeOf (JSValue.arr cs) < sizeOf v := by
  cases v with
  | obj fs =>
      simp only [getField] at h
      cases hl : fieldsLookup fs key with
      | none => rw [hl] at h; simp [Option.getD] at h
      | some w =>
          rw [hl] at h
          simp [Option.getD] at h
          subst h
          have := fieldsLookup_sizeOf hl
          simp at this ⊢
          omega
  | arr xs =>
      simp only [getField] at h
      split at h
      · cases h
      · split at h
        · rename_i i heq
          split at h
          · by_cases hlt : i < xs.length
            · rw [List.getD_eq_getElem _ _ hlt] at h
              have hmem : JSValue.arr cs ∈ xs := h ▸ List.getElem_mem hlt
              have := List.sizeOf_lt_of_mem hmem
              simp at this ⊢
              omega
            · rw [List.getD_eq_default _ _ (by omega)] at h
              cases h
          · cases h
        · cases h
  | null => cases h
  | undefined => cases h
  | bool b => cases h
  | num n => cases h
  | str s => cases h

end JSValue

open JSValue

/-! ## Validator (`validatePageConfig` and friends) -/

/-- A structural validation problem: `path` locates the offending field,
`code` is the stable machine-checkable identifier. -/
structure ValidationError where
  path : String
  message : String
  code : String
deriving DecidableEq

/-- Result of `validatePageConfig`. -/
structure ValidationResult where
  valid : Bool
  errors : List ValidationError
deriving DecidableEq

/-- The closed Component Type Registry (`SUPPORTED_COMPONENT_TYPES`). -/
def SUPPORTED_COMPONENT_TYPES : List String :=
  ["MButton", "MInput", "MCard", "MList", "MText", "MImage", "MIcon",
   "MScanner", "MTable", "MForm", "MWorkOrderCard", "MLocationPicker",
   "MContainer", "MRow", "MCol", "MGrid", "MScrollView",
   "MSelect", "MDatePicker", "MSwitch", "MRadio", "MCheckbox"]

/-- `isComponentTypeSupported`: membership in the registry
(the source's `componentTypeSet` is a `Set` built from the same list,
so membership coincides). -/
def isComponentTypeSupported (ty : String) : Bool :=
  SUPPORTED_COMPONENT_TYPES.contains ty

/-- The `id` check of `validateComponentConfig`:
`!comp.id || typeof comp.id !== 'string'` fails exactly on values that
are not non-empty strings. -/
def componentIdErrors (idv : JSValue) (path : String) : List ValidationError :=
  match idv with
  | .str s => if s = "" then [⟨path ++ ".id", "组件ID是必填的字符串", "REQUIRED_FIELD"⟩] else []
  | _ => [⟨path ++ ".id", "组件ID是必填的字符串", "REQUIRED_FIELD"⟩]

/-- The `type` check of `validateComponentConfig`:
`!comp.type || typeof comp.type !== 'string'` (missing / non-string /
empty string) raises `REQUIRED_FIELD`; otherwise a non-empty string not
in `componentTypeSet` raises `UNSUPPORTED_TYPE`. -/
def componentTypeErrors (tv : JSValue) (path : String) : List ValidationError :=
  match tv with
  | .str s =>
      if s = "" then [⟨path ++ ".type", "组件类型是必填的字符串", "REQUIRED_FIELD"⟩]
      else if isComponentTypeSupported s then []
      else [⟨path ++ ".type", "不支持的组件类型: " ++ s, "UNSUPPORTED_TYPE"⟩]
  | _ => [⟨path ++ ".type", "组件类型是必填的字符串", "REQUIRED_FIELD"⟩]

/-- The `props` check of `validateComponentConfig`:
`comp.props !== undefined && typeof comp.props !== 'object'`.
Note that `typeof null === 'object'`, so a `null` props raises nothing. -/
def componentPropsErrors (pv : JSValue) (path : String) : List ValidationError :=
  if pv ≠ .undefined ∧ jsTypeof pv ≠ "object" then
    [⟨path ++ ".props", "组件属性必须是对象", "INVALID_TYPE"⟩]
  else []

mutual

/-- `validateComponentConfig(config, path)`: non-object inputs give a
single `INVALID_CONFIG`; otherwise the `id`, `type`, `props` checks run
in order and a present `children` must be an array whose elements are
validated recursively at `path.children[i]`. -/
def validateComponentConfig (config : JSValue) (path : String) : List ValidationError :=
  if truthy config = true ∧ jsTypeof config = "object" then
    componentIdErrors (config.getField "id") path ++
    componentTypeErrors (config.getField "type") path ++
    componentPropsErrors (config.getField "props") path ++
    (match h : config.getField "children" with
     | .arr cs => validateChildren cs path 0
     | .undefined => []
     | _ => [⟨path ++ ".children", "子组件必须是数组", "INVALID_TYPE"⟩])
  else
    [⟨path, "组件配置必须是对象", "INVALID_CONFIG"⟩]
termination_by sizeOf config
decreasing_by
  have := JSValue.getField_arr_sizeOf h
  simp at this
  omega

/-- The `comp.children.forEach` loop of `validateComponentConfig`,
carrying the running index used in the child paths. -/
def validateChildren (cs : List JSValue) (path : String) (i : Nat) : List ValidationError :=
  match cs with
  | [] => []
  | c :: rest =>
      validateComponentConfig c (path ++ ".children[" ++ toString i ++ "]") ++
      validateChildren rest path (i + 1)
termination_by sizeOf cs
decreasing_by
  all_goals simp <;> omega

end

/-- `validateDataSourceConfig(config, path)`: requires a non-null
object with a non-empty string `id`, a `type` among
`['api', 'static', 'computed']` and an object `config`.
(`!ds.type || !validTypes.includes(ds.type)` is decided by the
membership test alone: falsy values are never members.) -/
def validateDataSourceConfig (config : JSValue) (path : String) : List ValidationError :=
  if truthy config = true ∧ jsTypeof config = "object" then
    (match config.getField "id" with
     | .str s => if s = "" then [⟨path ++ ".id", "数据源ID是必填的字符串", "REQUIRED_FIELD"⟩] else []
     | _ => [⟨path ++ ".id", "数据源ID是必填的字符串", "REQUIRED_FIELD"⟩]) ++
    (match config.getField "type" with
     | .str s =>
         if s = "api" ∨ s = "static" ∨ s = "computed" then []
         else [⟨path ++ ".type", "数据源类型必须是: api, static, computed", "INVALID_TYPE"⟩]
     | _ => [⟨path ++ ".type", "数据源类型必须是: api, static, computed", "INVALID_TYPE"⟩]) ++
    (if truthy (config.getField "config") = true ∧ jsTypeof (config.getField "config") = "object" then []
     else [⟨path ++ ".config", "数据源配置详情是必填的", "REQUIRED_FIELD"⟩])
  else
    [⟨path, "数据源配置必须是对象", "INVALID_CONFIG"⟩]

/-- The `pageConfig.components.forEach` loop of `validatePageConfig`. -/
def validateComponentsTop (cs : List JSValue) (i : Nat) : List ValidationError :=
  match cs with
  | [] => []
  | c :: rest =>
      validateComponentConfig c ("components[" ++ toString i ++ "]") ++
      validateComponentsTop rest (i + 1)

/-- The `pageConfig.dataSource.forEach` loop of `validatePageConfig`. -/
def validateDataSourcesTop (dss : List JSValue) (i : Nat) : List ValidationError :=
  match dss with
  | [] => []
  | ds :: rest =>
      validateDataSourceConfig ds ("dataSource[" ++ toString i ++ "]") ++
      validateDataSourcesTop rest (i + 1)

/-- `validatePageConfig(config)`: non-null-object inputs short-circuit
with one `INVALID_CONFIG` at path `""`; otherwise `pageCode`, `title`,
`components` and (when present) `dataSource` are checked in order,
accumulating every nested error, and `valid` is `errors.length === 0`. -/
def validatePageConfig (config : JSValue) : ValidationResult :=
  if truthy config = true ∧ jsTypeof config = "object" then
    let errors :=
      (match config.getField "pageCode" with
       | .str s => if s = "" then [⟨"pageCode", "页面编码是必填的字符串", "REQUIRED_FIELD"⟩] else []
       | _ => [⟨"pageCode", "页面编码是必填的字符串", "REQUIRED_FIELD"⟩]) ++
      (match config.getField "title" with
       | .str s => if s = "" then [⟨"title", "页面标题是必填的字符串", "REQUIRED_FIELD"⟩] else []
       | _ => [⟨"title", "页面标题是必填的字符串", "REQUIRED_FIELD"⟩]) ++
      (match config.getField "components" with
       | .arr cs => validateComponentsTop cs 0
       | _ => [⟨"components", "组件列表必须是数组", "INVALID_TYPE"⟩]) ++
      (match config.getField "dataSource" with
       | .undefined => []
       | .arr dss => validateDataSourcesTop dss 0
       | _ => [⟨"dataSource", "数据源配置必须是数组", "INVALID_TYPE"⟩])
    ⟨errors.isEmpty, errors⟩
  else
    ⟨false, [⟨"", "配置必须是一个对象", "INVALID_CONFIG"⟩]⟩

/-! ## Parser (`parseComponent`, `parsePageConfig`) -/

/-- Output component descriptor (`ParsedComponent`): `id`, `type` and a
shallow copy of `props` are carried over, `children` is present exactly
when the input had a children array, and `visible` is a concrete
boolean. -/
inductive ParsedComponent where
  | mk : JSValue → JSValue → JSValue → Option (List ParsedComponent) → Bool → ParsedComponent

namespace ParsedComponent

def id : ParsedComponent → JSValue
  | .mk i _ _ _ _ => i

def type : ParsedComponent → JSValue
  | .mk _ t _ _ _ => t

def props : ParsedComponent → JSValue
  | .mk _ _ p _ _ => p

def children : ParsedComponent → Option (List ParsedComponent)
  | .mk _ _ _ c _ => c

def visible : ParsedComponent → Bool
  | .mk _ _ _ _ v => v

end ParsedComponent

/-- The JS spread `{ ...v }`: a fresh shallow object copy.  Spreading
`null`/`undefined`/booleans/numbers gives an empty object; spreading an
array or a string copies its indexed own properties. -/
def spreadObject : JSValue → JSValue
  | .obj fs => .obj fs
  | .arr xs => .obj ((List.range xs.length).zip xs |>.map fun p => (toString p.1, p.2))
  | .str s => .obj ((List.range s.length).zip s.data |>.map fun p => (toString p.1, .str (String.mk [p.2])))
  | _ => .obj []

/-- `permissions.has(v)` for a JS `Set<string>`: `SameValueZero`
equality means a non-string member test is always `false`. -/
def setHas (permissions : List String) : JSValue → Bool
  | .str s => permissions.contains s
  | _ => false

mutual

/-- `parseComponent(config, permissions)`: `visible` starts as
`config.visible !== false` and is forced to `false` when a truthy
`permission` is not in the caller's set; `children` is mapped
recursively when present (after validation it is an array or absent). -/
def parseComponent (config : JSValue) (permissions : List String) : ParsedComponent :=
  let visible0 : Bool := config.getField "visible" ≠ JSValue.bool false
  let visible : Bool :=
    if truthy (config.getField "permission") = true ∧
        setHas permissions (config.getField "permission") = false then false
    else visible0
  let children : Option (List ParsedComponent) :=
    match h : config.getField "children" with
    | .arr cs => some (parseComponentList cs permissions)
    | _ => none
  ⟨config.getField "id", config.getField "type",
    spreadObject (config.getField "props"), children, visible⟩
termination_by sizeOf config
decreasing_by
  have := JSValue.getField_arr_sizeOf h
  simp at this
  omega

/-- The `config.children?.map` of `parseComponent`. -/
def parseComponentList (cs : List JSValue) (permissions : List String) : List ParsedComponent :=
  match cs with
  | [] => []
  | c :: rest => parseComponent c permissions :: parseComponentList rest permissions
termination_by sizeOf cs
decreasing_by
  all_goals simp <;> omega

end

/-- The error thrown by `parsePageConfig` (`ParseError` with its
`details.errors` payload). -/
structure ParseError where
  message : String
  path : String
  errors : List ValidationError
deriving DecidableEq

/-- `Map.set` of the JS `Map` backing `parsedPage.dataSources`:
an existing key keeps its position and gets the new value, a new key is
appended. -/
def mapSet : List (JSValue × JSValue) → JSValue → JSValue → List (JSValue × JSValue)
  | [], k, v => [(k, v)]
  | (k', w) :: rest, k, v =>
      if k' = k then (k', v) :: rest else (k', w) :: mapSet rest k v

/-- `Map.get`: the value stored at a key, if any. -/
def mapGet : List (JSValue × JSValue) → JSValue → Option JSValue
  | [], _ => none
  | (k', v) :: rest, k => if k' = k then some v else mapGet rest k

/-- The value stored for one data source entry during
`parsePageConfig`'s initialization loop: `config.data` verbatim for a
`static` entry whose config has an own `data` property, `null`
otherwise. -/
def dataSourceInitValue (ds : JSValue) : JSValue :=
  if ds.getField "type" = .str "static" ∧ (ds.getField "config").hasField "data" = true then
    (ds.getField "config").getField "data"
  else
    .null

/-- The `config.dataSource.forEach` initialization loop of
`parsePageConfig`. -/
def initDataSources (dss : List JSValue) : List (JSValue × JSValue) :=
  dss.foldl (fun m ds => mapSet m (ds.getField "id") (dataSourceInitValue ds)) []

/-- Output page model (`ParsedPage`). -/
structure ParsedPage where
  pageCode : JSValue
  title : JSValue
  components : List ParsedComponent
  dataSources : List (JSValue × JSValue)

/-- `parsePageConfig(config, userPermissions)`: validates first and
throws (`Except.error`) a `ParseError` carrying the accumulated errors
when invalid; otherwise maps every component through `parseComponent`
and initializes the data source map.  (`new Set(userPermissions)` only
ever feeds membership tests, so the permission set is kept as the
given list.)  The `components`/`dataSource` field reads are matched
totally; a valid config always takes the array branches. -/
def parsePageConfig (config : JSValue) (userPermissions : List String) :
    Except ParseError ParsedPage :=
  let validation := validatePageConfig config
  if validation.valid = true then
    .ok
      { pageCode := config.getField "pageCode"
        title := config.getField "title"
        components :=
          match config.getField "components" with
          | .arr cs => parseComponentList cs userPermissions
          | _ => []
        dataSources :=
          if truthy (config.getField "dataSource") = true then
            match config.getField "dataSource" with
            | .arr dss => initDataSources dss
            | _ => []
          else [] }
  else
    .error ⟨"页面配置验证失败", "", validation.errors⟩

/-! ## Binding collector (`getDataBindings`) -/

/-- The body of `collectBindings` for one component carrying a
`dataBinding`: `if (!bindings.has(source)) bindings.set(source, []);
bindings.get(source)!.push(field)` — append to an existing key's list
(keeping its position), or append a fresh singleton entry. -/
def bindingPush : List (JSValue × List JSValue) → JSValue → JSValue →
    List (JSValue × List JSValue)
  | [], k, v => [(k, [v])]
  | (k', l) :: rest, k, v =>
      if k' = k then (k', l ++ [v]) :: rest else (k', l) :: bindingPush rest k v

/-- Lookup in the bindings map. -/
def bindingGet : List (JSValue × List JSValue) → JSValue → Option (List JSValue)
  | [], _ => none
  | (k', l) :: rest, k => if k' = k then some l else bindingGet rest k

/-- The body of the `collectBindings` loop for one component before
recursing: push `(dataBinding.source, dataBinding.field)` when the
component carries a truthy `dataBinding`. -/
def bindingStep (m : List (JSValue × List JSValue)) (c : JSValue) :
    List (JSValue × List JSValue) :=
  if truthy (c.getField "dataBinding") = true then
    bindingPush m ((c.getField "dataBinding").getField "source")
      ((c.getField "dataBinding").getField "field")
  else m

mutual

/-- The `collectBindings` closure of `getDataBindings`, walking a
component list in order with the accumulated map threaded through. -/
def collectBindings (m : List (JSValue × List JSValue)) (cs : List JSValue) :
    List (JSValue × List JSValue) :=
  match cs with
  | [] => m
  | c :: rest => collectBindings (collectFromComponent m c) rest
termination_by sizeOf cs
decreasing_by
  all_goals simp <;> omega

/-- One component in the `collectBindings` walk: its own binding first
(`bindingStep`), then recursion into a present children array.  (A
truthy non-array `children` would make the `forEach` of the source
throw; the embedded functions are only applied to configs whose
children are arrays or absent.) -/
def collectFromComponent (m : List (JSValue × List JSValue)) (c : JSValue) :
    List (JSValue × List JSValue) :=
  match h : c.getField "children" with
  | .arr cs => collectBindings (bindingStep m c) cs
  | _ => bindingStep m c
termination_by sizeOf c
decreasing_by
  have := JSValue.getField_arr_sizeOf h
  simp at this
  omega

end

/-- `getDataBindings(config)`: walk `config.components` with an empty
accumulator.  (On a non-array `components` the source's `forEach` would
throw; the claims only concern configs whose `components` is an
array.) -/
def getDataBindings (config : JSValue) : List (JSValue × List JSValue) :=
  match config.getField "components" with
  | .arr cs => collectBindings [] cs
  | _ => []

/-- The binding pair a single component contributes on its own, when
its `dataBinding` is truthy. -/
def ownBindingPairs (c : JSValue) : List (JSValue × JSValue) :=
  if truthy (c.getField "dataBinding") = true then
    [((c.getField "dataBinding").getField "source",
      (c.getField "dataBinding").getField "field")]
  else []

mutual

/-- Modelled from the spec for the binding-collection claim: the
depth-first pre-order list of `(dataBinding.source, dataBinding.field)`
pairs of every component carrying a `dataBinding`, children visited in
array order. -/
def bindingPairs (cs : List JSValue) : List (JSValue × JSValue) :=
  match cs with
  | [] => []
  | c :: rest => bindingPairsOfComponent c ++ bindingPairs rest
termination_by sizeOf cs
decreasing_by
  all_goals simp <;> omega

/-- The per-component part of `bindingPairs`: own pair first, then the
children subtree. -/
def bindingPairsOfComponent (c : JSValue) : List (JSValue × JSValue) :=
  ownBindingPairs c ++
  (match h : c.getField "children" with
   | .arr cs => bindingPairs cs
   | _ => [])
termination_by sizeOf c
decreasing_by
  have := JSValue.getField_arr_sizeOf h
  simp at this
  omega

end

/-! ## Renderer-side binding resolution (`resolveBinding`) -/

/-- The live data context consumed by the renderer
(`DataContext = { dataSources, formData, params }`). -/
structure DataContext where
  dataSources : List (String × JSValue)
  formData : List (String × JSValue)
  params : List (String × JSValue)

/-- The loop of `resolveBinding`: `isCtx` tracks the JS reference
equality `value === context` (true only while `value` is still the
context object itself), under which a `dataSources` segment reads
`Object.fromEntries(context.dataSources)` instead of a plain property.
The context object itself exposes `formData` and `params` as plain
properties; its `dataSources` property holds the `Map` instance, whose
bracket reads all yield `undefined` (modelled as an empty object, and
unreachable anyway because the special case intercepts). -/
def resolveLoop (ctx : DataContext) : List String → JSValue → Bool → JSValue
  | [], value, _ => value
  | part :: rest, value, isCtx =>
      if value = .null ∨ value = .undefined then .undefined
      else if jsTypeof value = "object" then
        if part = "dataSources" ∧ isCtx = true then
          resolveLoop ctx rest (.obj ctx.dataSources) false
        else
          resolveLoop ctx rest (value.getField part) false
      else .undefined

/-- The raw context object at the start of `resolveBinding`'s loop. -/
def contextStart (ctx : DataContext) : JSValue :=
  .obj [("dataSources", .obj []), ("formData", .obj ctx.formData),
        ("params", .obj ctx.params)]

/-- `resolveBinding(expression, context)`: dotted-path traversal. -/
def resolveBinding (expression : String) (context : DataContext) : JSValue :=
  resolveLoop context (expression.splitOn ".") (contextStart context) true

/-- Modelled from the spec's words for the binding-resolution claim:
plain dotted-path traversal through the context object (data source
entries exposed as an object), returning `undefined` whenever an
intermediate value is `null`, `undefined` or not an object, and the
value reached at the end of the path otherwise. -/
def resolveSpecWalk : List String → JSValue → JSValue
  | [], value => value
  | part :: rest, value =>
      if value = .null ∨ value = .undefined then .undefined
      else if jsTypeof value = "object" then resolveSpecWalk rest (value.getField part)
      else .undefined

/-- The context object the spec's description traverses. -/
def contextValue (ctx : DataContext) : JSValue :=
  .obj [("dataSources", .obj ctx.dataSources), ("formData", .obj ctx.formData),
        ("params", .obj ctx.params)]

/-! ## Claim theorems -/

/-- C4: `validatePageConfig` never throws (it is embedded as a total
function) and always returns `valid = (errors.length === 0)`; a `null`
or non-object input yields exactly one `INVALID_CONFIG` error at path
`""` and no further checks run (the error list is that singleton). -/
theorem claim_C4_validator_totality (config : JSValue) :
    ((validatePageConfig config).valid = true ↔
      (validatePageConfig config).errors.length = 0) ∧
    ((config = .null ∨ jsTypeof config ≠ "object") →
      (validatePageConfig config).valid = false ∧
      (validatePageConfig config).errors =
        [⟨"", "配置必须是一个对象", "INVALID_CONFIG"⟩]) := by
  constructor
  · unfold validatePageConfig
    split
    · simp [List.isEmpty_iff, List.length_eq_zero]
    · simp
  · intro h
    have hguard : ¬(truthy config = true ∧ jsTypeof config = "object") := by
      rcases h with h | h
      · subst h
        simp [truthy]
      · exact fun hc => h hc.2
    unfold validatePageConfig
    rw [if_neg hguard]
    exact ⟨rfl, rfl⟩

/-- Closed witness for C4 at the concrete input `null`. -/
theorem claim_C4_witness :
    (validatePageConfig .null).valid = false ∧
    (validatePageConfig .null).errors =
      [⟨"", "配置必须是一个对象", "INVALID_CONFIG"⟩] :=
  (claim_C4_validator_totality .null).2 (Or.inl rfl)

/-- C3: `parsePageConfig` throws (returns `Except.error`) exactly when
`validatePageConfig` reports the config invalid; the thrown `ParseError`
carries the complete accumulated error list in one batch; a valid
config yields a `ParsedPage` and no error. -/
theorem claim_C3_parse_error_channel (config : JSValue) (perms : List String) :
    ((validatePageConfig config).valid = false ↔
      parsePageConfig config perms =
        .error ⟨"页面配置验证失败", "", (validatePageConfig config).errors⟩) ∧
    ((validatePageConfig config).valid = true ↔
      ∃ page, parsePageConfig config perms = .ok page) ∧
    (∀ e, parsePageConfig config perms = .error e →
      e.errors = (validatePageConfig config).errors) := by
  by_cases h : (validatePageConfig config).valid = true
  · simp [parsePageConfig, h]
  · have hb : (validatePageConfig config).valid = false := by
      cases hv : (validatePageConfig config).valid
      · rfl
      · exact absurd hv h
    simp [parsePageConfig, hb]

/-- Closed witness for C3 at the concrete invalid input `null`. -/
theorem claim_C3_witness :
    parsePageConfig .null [] =
      .error ⟨"页面配置验证失败", "",
        [⟨"", "配置必须是一个对象", "INVALID_CONFIG"⟩]⟩ := by
  have h := (claim_C3_parse_error_channel .null []).1
  have hv : (validatePageConfig .null).valid = false := rfl
  have he : (validatePageConfig .null).errors =
      [⟨"", "配置必须是一个对象", "INVALID_CONFIG"⟩] := rfl
  rw [← he]
  exact h.mp hv

theorem parseComponent_id (c : JSValue) (perms : List String) :
    (parseComponent c perms).id = c.getField "id" := by
  rw [parseComponent]
  rfl

theorem parseComponent_type (c : JSValue) (perms : List String) :
    (parseComponent c perms).type = c.getField "type" := by
  rw [parseComponent]
  rfl

theorem parseComponent_visible (c : JSValue) (perms : List String) :
    (parseComponent c perms).visible =
      (if truthy (c.getField "permission") = true ∧
          setHas perms (c.getField "permission") = false then false
       else decide (c.getField "visible" ≠ JSValue.bool false)) := by
  rw [parseComponent]
  rfl

theorem parseComponent_children_arr (c : JSValue) (perms : List String)
    (cs : List JSValue) (h : c.getField "children" = .arr cs) :
    (parseComponent c perms).children = some (parseComponentList cs perms) := by
  rw [parseComponent]
  simp only [ParsedComponent.children]
  split
  · rename_i cs' heq
    rw [h] at heq
    injection heq with h2
    rw [h2]
  · rename_i hne
    exact absurd h (hne cs)

theorem parseComponent_children_none (c : JSValue) (perms : List String)
    (h : ∀ cs : List JSValue, c.getField "children" ≠ .arr cs) :
    (parseComponent c perms).children = none := by
  rw [parseComponent]
  simp only [ParsedComponent.children]

theorem parseComponentList_eq_map (cs : List JSValue) (perms : List String) :
    parseComponentList cs perms = cs.map (fun c => parseComponent c perms) := by
  induction cs with
  | nil => rw [parseComponentList]; rfl
  | cons c rest ih => rw [parseComponentList, ih]; rfl

mutual

/-- Structure agreement between an input component config and a parsed
component: same `id` and `type`, and a children array mapped pointwise
(same length, same order), recursively. -/
def structAgrees (c : JSValue) (p : ParsedComponent) : Bool :=
  decide (p.id = c.getField "id") && decide (p.type = c.getField "type") &&
  (match h : c.getField "children" with
   | .arr cs =>
       match p.children with
       | some ps => structAgreesList cs ps
       | none => false
   | _ =>
       match p.children with
       | some _ => false
       | none => true)
termination_by sizeOf c
decreasing_by
  have := JSValue.getField_arr_sizeOf h
  simp at this
  omega

/-- Pointwise structure agreement of a children array. -/
def structAgreesList (cs : List JSValue) (ps : List ParsedComponent) : Bool :=
  match cs, ps with
  | [], [] => true
  | c :: cs', p :: ps' => structAgrees c p && structAgreesList cs' ps'
  | _, _ => false
termination_by sizeOf cs
decreasing_by
  all_goals simp <;> omega

end

theorem structAgreesList_length {cs : List JSValue} {ps : List ParsedComponent}
    (h : structAgreesList cs ps = true) : ps.length = cs.length := by
  induction cs generalizing ps with
  | nil =>
      cases ps with
      | nil => rfl
      | cons p ps' => simp [structAgreesList] at h
  | cons c cs' ih =>
      cases ps with
      | nil => simp [structAgreesList] at h
      | cons p ps' =>
          simp only [structAgreesList, Bool.and_eq_true] at h
          simp [ih h.2]

theorem structAgrees_parseComponent :
    ∀ (n : Nat) (c : JSValue), sizeOf c ≤ n → ∀ perms : List String,
      structAgrees c (parseComponent c perms) = true := by
  intro n
  induction n using Nat.strong_induction_on with
  | _ n ih =>
      intro c hc perms
      rw [structAgrees]
      rw [Bool.and_eq_true, Bool.and_eq_true]
      refine ⟨⟨?_, ?_⟩, ?_⟩
      · simp [parseComponent_id]
      · simp [parseComponent_type]
      · split
        · rename_i cs heq
          rw [parseComponent_children_arr c perms cs heq]
          have hsz := JSValue.getField_arr_sizeOf heq
          simp at hsz
          have hlist : ∀ c' ∈ cs, structAgrees c' (parseComponent c' perms) = true := by
            intro c' hc'
            have hsz' := List.sizeOf_lt_of_mem hc'
            exact ih (sizeOf c') (by omega) c' (le_refl _) perms
          clear heq hsz
          induction cs with
          | nil => simp [parseComponentList, structAgreesList]
          | cons c' cs' ihcs =>
              rw [parseComponentList]
              simp only [structAgreesList, Bool.and_eq_true]
              exact ⟨hlist c' (List.mem_cons_self c' cs'),
                ihcs (fun x hx => hlist x (List.mem_cons_of_mem c' hx))⟩
        · rename_i hne
          rw [parseComponent_children_none c perms (fun cs hcs => hne cs hcs)]

theorem structAgreesList_parseComponentList (cs : List JSValue) (perms : List String) :
    structAgreesList cs (parseComponentList cs perms) = true := by
  induction cs with
  | nil => simp [parseComponentList, structAgreesList]
  | cons c rest ih =>
      rw [parseComponentList]
      simp only [structAgreesList, Bool.and_eq_true]
      exact ⟨structAgrees_parseComponent (sizeOf c) c (le_refl _) perms, ih⟩

/-- C1: for every config that passes validation, `parsePageConfig`
succeeds and maps the `components` array pointwise: same length, and
at each index the parsed component has the same `id` and `type` as the
input component; no component is dropped or reordered by visibility, and
the same holds recursively for every children array
(`structAgreesList`). -/
theorem claim_C1_structure_preserving_parse (config : JSValue)
    (perms : List String) (cs : List JSValue)
    (hcs : config.getField "components" = .arr cs)
    (hvalid : (validatePageConfig config).valid = true) :
    ∃ page, parsePageConfig config perms = .ok page ∧
      page.components.length = cs.length ∧
      structAgreesList cs page.components = true := by
  have hpage : parsePageConfig config perms = .ok
      { pageCode := config.getField "pageCode"
        title := config.getField "title"
        components := parseComponentList cs perms
        dataSources :=
          if truthy (config.getField "dataSource") = true then
            match config.getField "dataSource" with
            | .arr dss => initDataSources dss
            | _ => []
          else [] } := by
    simp [parsePageConfig, hvalid, hcs]
  refine ⟨_, hpage, ?_, ?_⟩
  · have := structAgreesList_parseComponentList cs perms
    exact structAgreesList_length this
  · exact structAgreesList_parseComponentList cs perms

/-- Closed witness for C1 at a concrete valid two-level page config. -/
theorem claim_C1_witness :
    ∃ page,
      parsePageConfig
        (.obj [("pageCode", .str "demo"), ("title", .str "Demo"),
          ("components", .arr
            [.obj [("id", .str "btn1"), ("type", .str "MButton"),
              ("children", .arr
                [.obj [("id", .str "t1"), ("type", .str "MText")]])]])])
        [] = .ok page ∧
      page.components.length =
        [JSValue.obj [("id", .str "btn1"), ("type", .str "MButton"),
          ("children", .arr
            [.obj [("id", .str "t1"), ("type", .str "MText")]])]].length ∧
      structAgreesList
        [JSValue.obj [("id", .str "btn1"), ("type", .str "MButton"),
          ("children", .arr
            [.obj [("id", .str "t1"), ("type", .str "MText")]])]]
        page.components = true :=
  claim_C1_structure_preserving_parse _ [] _ rfl
    (by simp [validatePageConfig, validateComponentsTop, validateComponentConfig,
      validateChildren, componentIdErrors, componentTypeErrors, componentPropsErrors,
      isComponentTypeSupported, SUPPORTED_COMPONENT_TYPES, getField, fieldsLookup,
      truthy, jsTypeof])

/-- Modelled from the claim: the permission criterion alone — visible
when no permission is declared, when the declared permission is the
empty string, or when it is a member of the caller permission set. -/
def permissionCriterion (perm : JSValue) (perms : List String) : Bool :=
  match perm with
  | .undefined => true
  | .str s => if s = "" then true else perms.contains s
  | _ => false

/-- C2: for every component whose `permission` field is absent or a
string, the parsed `visible` equals `(visible !== false) AND
(permission criterion)`, computed from the node itself; the `children`
of the parsed node depend only on the children field (so a parent with
`visible === false` does not change any child), and a children array is
parsed by mapping `parseComponent` over it with the same permission
set. -/
theorem claim_C2_visibility_rule (c : JSValue) (perms : List String)
    (h : c.getField "permission" = .undefined ∨
      ∃ s, c.getField "permission" = .str s) :
    ((parseComponent c perms).visible =
      (decide (c.getField "visible" ≠ JSValue.bool false) &&
        permissionCriterion (c.getField "permission") perms)) ∧
    (∀ c₂ : JSValue, c₂.getField "children" = c.getField "children" →
      (parseComponent c₂ perms).children = (parseComponent c perms).children) ∧
    (∀ cs, c.getField "children" = .arr cs →
      (parseComponent c perms).children =
        some (cs.map (fun child => parseComponent child perms))) := by
  refine ⟨?_, ?_, ?_⟩
  · rw [parseComponent_visible]
    rcases h with h | ⟨s, h⟩
    · rw [h]
      simp [truthy, permissionCriterion, setHas]
    · rw [h]
      by_cases hs : s = ""
      · subst hs
        simp [truthy, permissionCriterion, setHas]
      · simp [truthy, permissionCriterion, setHas, hs]
        exact Bool.and_comm _ _
  · intro c₂ hc₂
    by_cases harr : ∃ cs, c.getField "children" = .arr cs
    · obtain ⟨cs, hcs⟩ := harr
      rw [parseComponent_children_arr c perms cs hcs,
        parseComponent_children_arr c₂ perms cs (hc₂ ▸ hcs)]
    · push_neg at harr
      rw [parseComponent_children_none c perms harr,
        parseComponent_children_none c₂ perms (fun cs hcs => harr cs (hc₂ ▸ hcs))]
  · intro cs hcs
    rw [parseComponent_children_arr c perms cs hcs, parseComponentList_eq_map]

/-- Closed witness for C2: a component requiring permission `admin`
parsed with the permission set `[view]` is not visible. -/
theorem claim_C2_witness :
    (parseComponent (.obj [("id", .str "a"), ("permission", .str "admin")])
      ["view"]).visible = false := by
  have h := (claim_C2_visibility_rule
    (.obj [("id", .str "a"), ("permission", .str "admin")]) ["view"]
    (Or.inr ⟨"admin", rfl⟩)).1
  rw [h]
  decide

theorem mapGet_mapSet_self (m : List (JSValue × JSValue)) (k v : JSValue) :
    mapGet (mapSet m k v) k = some v := by
  induction m with
  | nil => simp [mapSet, mapGet]
  | cons kv rest ih =>
      obtain ⟨k₀, w⟩ := kv
      by_cases h : k₀ = k
      · simp [mapSet, mapGet, h]
      · simp [mapSet, mapGet, h, ih]

theorem mapGet_mapSet_ne (m : List (JSValue × JSValue)) (k v k' : JSValue)
    (h : k' ≠ k) : mapGet (mapSet m k v) k' = mapGet m k' := by
  have hkk : ¬k = k' := fun hh => h hh.symm
  induction m with
  | nil => simp [mapSet, mapGet, hkk]
  | cons kv rest ih =>
      obtain ⟨k₀, w⟩ := kv
      by_cases h₀ : k₀ = k
      · subst h₀
        simp [mapSet, mapGet, hkk]
      · simp [mapSet, mapGet, h₀, ih]

theorem initDS_fold_notmem :
    ∀ (l : List JSValue) (m : List (JSValue × JSValue)) (k : JSValue),
      (∀ ds ∈ l, ds.getField "id" ≠ k) →
      mapGet (l.foldl
        (fun acc ds => mapSet acc (ds.getField "id") (dataSourceInitValue ds)) m) k =
      mapGet m k := by
  intro l
  induction l with
  | nil => intro m k _; rfl
  | cons d rest ih =>
      intro m k h
      rw [List.foldl_cons,
        ih _ k (fun x hx => h x (List.mem_cons_of_mem d hx)),
        mapGet_mapSet_ne _ _ _ _ (fun hk => h d (List.mem_cons_self d rest) hk.symm)]

theorem initDS_fold_get :
    ∀ (l : List JSValue) (m : List (JSValue × JSValue)) (ds : JSValue),
      ds ∈ l → (l.map (fun d => d.getField "id")).Nodup →
      mapGet (l.foldl
        (fun acc d => mapSet acc (d.getField "id") (dataSourceInitValue d)) m)
        (ds.getField "id") = some (dataSourceInitValue ds) := by
  intro l
  induction l with
  | nil => intro m ds h; cases h
  | cons d rest ih =>
      intro m ds hmem hnodup
      rw [List.map_cons, List.nodup_cons] at hnodup
      rw [List.foldl_cons]
      rcases List.mem_cons.mp hmem with heq | hmem₂
      · subst heq
        have hne : ∀ x ∈ rest, x.getField "id" ≠ ds.getField "id" := by
          intro x hx hcontra
          apply hnodup.1
          rw [← hcontra]
          exact List.mem_map_of_mem _ hx
        rw [initDS_fold_notmem rest _ _ hne]
        exact mapGet_mapSet_self _ _ _
      · exact ih _ ds hmem₂ hnodup.2

theorem initDataSources_get (dss : List JSValue) (ds : JSValue) (hmem : ds ∈ dss)
    (hnodup : (dss.map (fun d => d.getField "id")).Nodup) :
    mapGet (initDataSources dss) (ds.getField "id") =
      some (dataSourceInitValue ds) :=
  initDS_fold_get dss [] ds hmem hnodup

theorem parsePageConfig_dataSources (config : JSValue) (perms : List String)
    (page : ParsedPage) (h : parsePageConfig config perms = .ok page) :
    page.dataSources =
      (if truthy (config.getField "dataSource") = true then
        match config.getField "dataSource" with
        | .arr dss => initDataSources dss
        | _ => []
      else []) := by
  unfold parsePageConfig at h
  by_cases hv : (validatePageConfig config).valid = true
  · rw [if_pos hv] at h
    simp only [Except.ok.injEq] at h
    rw [← h]
  · rw [if_neg hv] at h
    cases h

/-- C5: after a successful parse, a `static` data source entry (whose
config carries its `data` field, as the typed `StaticDataSourceConfig`
shape requires) is materialized verbatim in the `dataSources` map,
`api` and `computed` entries are initialized to `null`, and an absent
`dataSource` field yields an empty map.  Entry ids are assumed pairwise
distinct, the documented invariant for data sources of one page. -/
theorem claim_C5_datasource_init (config : JSValue) (perms : List String)
    (page : ParsedPage) (h : parsePageConfig config perms = .ok page) :
    (config.getField "dataSource" = .undefined → page.dataSources = []) ∧
    (∀ dss, config.getField "dataSource" = .arr dss →
      (dss.map (fun d => d.getField "id")).Nodup →
      ∀ ds ∈ dss,
        (ds.getField "type" = .str "static" →
          (ds.getField "config").hasField "data" = true →
          mapGet page.dataSources (ds.getField "id") =
            some ((ds.getField "config").getField "data")) ∧
        ((ds.getField "type" = .str "api" ∨ ds.getField "type" = .str "computed") →
          mapGet page.dataSources (ds.getField "id") = some .null)) := by
  have hds := parsePageConfig_dataSources config perms page h
  constructor
  · intro hund
    rw [hds, hund]
    rfl
  · intro dss harr hnodup ds hmem
    rw [hds, harr]
    simp only [truthy, if_pos]
    constructor
    · intro hstatic hdata
      have hval : dataSourceInitValue ds = (ds.getField "config").getField "data" := by
        rw [dataSourceInitValue, if_pos ⟨hstatic, hdata⟩]
      rw [← hval]
      exact initDataSources_get dss ds hmem hnodup
    · intro htype
      have hval : dataSourceInitValue ds = .null := by
        rw [dataSourceInitValue, if_neg]
        rintro ⟨hstatic, -⟩
        rcases htype with htype | htype <;> rw [htype] at hstatic <;>
          exact absurd (JSValue.str.inj hstatic) (by decide)
      rw [← hval]
      exact initDataSources_get dss ds hmem hnodup

/-- Demo page config with one `static` (carrying data) and one `api`
data source. -/
def staticApiDemo : JSValue :=
  .obj [("pageCode", .str "p"), ("title", .str "t"), ("components", .arr []),
    ("dataSource", .arr
      [.obj [("id", .str "s1"), ("type", .str "static"),
         ("config", .obj [("data", .str "X")])],
       .obj [("id", .str "a1"), ("type", .str "api"),
         ("config", .obj [("url", .str "/u"), ("method", .str "GET")])]])]

/-- Closed witness for C5: the static entry materializes its data, the
api entry holds `null`. -/
theorem claim_C5_witness :
    mapGet (ParsedPage.mk (.str "p") (.str "t") []
        [(.str "s1", .str "X"), (.str "a1", .null)]).dataSources (.str "s1") =
      some (.str "X") ∧
    mapGet (ParsedPage.mk (.str "p") (.str "t") []
        [(.str "s1", .str "X"), (.str "a1", .null)]).dataSources (.str "a1") =
      some .null := by
  have hpage : parsePageConfig staticApiDemo [] =
      .ok ⟨.str "p", .str "t", [], [(.str "s1", .str "X"), (.str "a1", .null)]⟩ := by
    simp [parsePageConfig, validatePageConfig, staticApiDemo, validateComponentsTop,
      validateDataSourcesTop, validateDataSourceConfig, initDataSources,
      dataSourceInitValue, mapSet, getField, fieldsLookup, hasField, truthy,
      jsTypeof, parseComponentList]
  have h5 := claim_C5_datasource_init staticApiDemo [] _ hpage
  constructor
  · exact (h5.2 _ rfl (by decide) _ (List.mem_cons_self _ _)).1 rfl rfl
  · exact (h5.2 _ rfl (by decide) _
      (List.mem_cons_of_mem _ (List.mem_cons_self _ _))).2 (Or.inl rfl)

/-- C10: after a successful parse, a `static` data source entry whose
config object has no own `data` property is initialized to `null`, the
same placeholder as `api` and `computed`: verbatim materialization is
selected by the presence of the `data` key, not by the `static` type
alone. -/
theorem claim_C10_static_without_data (config : JSValue) (perms : List String)
    (page : ParsedPage) (h : parsePageConfig config perms = .ok page)
    (dss : List JSValue) (harr : config.getField "dataSource" = .arr dss)
    (hnodup : (dss.map (fun d => d.getField "id")).Nodup)
    (ds : JSValue) (hmem : ds ∈ dss)
    (hstatic : ds.getField "type" = .str "static")
    (hnodata : (ds.getField "config").hasField "data" = false) :
    mapGet page.dataSources (ds.getField "id") = some .null := by
  have hds := parsePageConfig_dataSources config perms page h
  rw [hds, harr]
  simp only [truthy, if_pos]
  have hval : dataSourceInitValue ds = .null := by
    rw [dataSourceInitValue, if_neg]
    rintro ⟨-, hdata⟩
    rw [hnodata] at hdata
    cases hdata
  rw [← hval]
  exact initDataSources_get dss ds hmem hnodup

/-- Demo page config with a `static` data source whose config lacks a
`data` key. -/
def staticNoDataDemo : JSValue :=
  .obj [("pageCode", .str "p"), ("title", .str "t"), ("components", .arr []),
    ("dataSource", .arr
      [.obj [("id", .str "s2"), ("type", .str "static"),
         ("config", .obj [("placeholder", .bool true)])]])]

/-- Closed witness for C10: a static data source without a `data` key
is initialized to `null`. -/
theorem claim_C10_witness :
    mapGet (ParsedPage.mk (.str "p") (.str "t") []
        [(.str "s2", .null)]).dataSources (.str "s2") = some .null := by
  have hpage : parsePageConfig staticNoDataDemo [] =
      .ok ⟨.str "p", .str "t", [], [(.str "s2", .null)]⟩ := by
    simp [parsePageConfig, validatePageConfig, staticNoDataDemo, validateComponentsTop,
      validateDataSourcesTop, validateDataSourceConfig, initDataSources,
      dataSourceInitValue, mapSet, getField, fieldsLookup, hasField, truthy,
      jsTypeof, parseComponentList]
  exact claim_C10_static_without_data staticNoDataDemo [] _ hpage _ rfl
    (by decide) _ (List.mem_cons_self _ _) rfl rfl

/-- Counterexample to C6 as stated: the empty string is a string that
does not belong to the Component Type Registry, yet validation raises
`REQUIRED_FIELD` for it (the falsy check `!comp.type` fires first), not
`UNSUPPORTED_TYPE`. -/
theorem claim_C6_counterexample :
    isComponentTypeSupported "" = false ∧
    validateComponentConfig (.obj [("id", .str "a"), ("type", .str "")])
        "components[0]" =
      [⟨"components[0].type", "组件类型是必填的字符串", "REQUIRED_FIELD"⟩] := by
  constructor
  · decide
  · simp [validateComponentConfig, componentIdErrors, componentTypeErrors,
      componentPropsErrors, getField, fieldsLookup, truthy, jsTypeof]

/-- C6 (amended): a component `type` that is a non-empty string outside
the registry yields exactly one `UNSUPPORTED_TYPE` error at
`{path}.type` (and `isComponentTypeSupported` is `false` for it); a
missing, non-string, or empty-string `type` yields `REQUIRED_FIELD`
instead; the type check never raises both codes for the same value. -/
theorem claim_C6_unsupported_type (c : JSValue) (path : String)
    (hobj : truthy c = true ∧ jsTypeof c = "object") :
    (∀ s : String, c.getField "type" = .str s → s ≠ "" →
      s ∉ SUPPORTED_COMPONENT_TYPES →
      isComponentTypeSupported s = false ∧
      componentTypeErrors (c.getField "type") path =
        [⟨path ++ ".type", "不支持的组件类型: " ++ s, "UNSUPPORTED_TYPE"⟩] ∧
      ⟨path ++ ".type", "不支持的组件类型: " ++ s, "UNSUPPORTED_TYPE"⟩ ∈
        validateComponentConfig c path) ∧
    (((∀ s : String, c.getField "type" ≠ .str s) ∨ c.getField "type" = .str "") →
      componentTypeErrors (c.getField "type") path =
        [⟨path ++ ".type", "组件类型是必填的字符串", "REQUIRED_FIELD"⟩] ∧
      ⟨path ++ ".type", "组件类型是必填的字符串", "REQUIRED_FIELD"⟩ ∈
        validateComponentConfig c path) ∧
    (componentTypeErrors (c.getField "type") path).length ≤ 1 := by
  refine ⟨?_, ?_, ?_⟩
  · intro s hs hne hnsupp
    have hsupp : isComponentTypeSupported s = false := by
      simpa [isComponentTypeSupported] using hnsupp
    have herr : componentTypeErrors (c.getField "type") path =
        [⟨path ++ ".type", "不支持的组件类型: " ++ s, "UNSUPPORTED_TYPE"⟩] := by
      rw [hs, componentTypeErrors]
      simp [hne, hsupp]
    refine ⟨hsupp, herr, ?_⟩
    rw [validateComponentConfig, if_pos hobj, herr]
    exact List.mem_append_left _ (List.mem_append_left _
      (List.mem_append_right _ (List.mem_singleton_self _)))
  · intro hbad
    have herr : componentTypeErrors (c.getField "type") path =
        [⟨path ++ ".type", "组件类型是必填的字符串", "REQUIRED_FIELD"⟩] := by
      rcases hbad with hbad | hbad
      · cases hty : c.getField "type" with
        | str s => exact absurd hty (hbad s)
        | null => simp [componentTypeErrors]
        | undefined => simp [componentTypeErrors]
        | bool b => simp [componentTypeErrors]
        | num n => simp [componentTypeErrors]
        | arr xs => simp [componentTypeErrors]
        | obj fs => simp [componentTypeErrors]
      · rw [hbad, componentTypeErrors]
        simp
    refine ⟨herr, ?_⟩
    rw [validateComponentConfig, if_pos hobj, herr]
    exact List.mem_append_left _ (List.mem_append_left _
      (List.mem_append_right _ (List.mem_singleton_self _)))
  · cases hty : c.getField "type" with
    | str s =>
        rw [componentTypeErrors]
        split
        · simp
        · split <;> simp
    | null => simp [componentTypeErrors]
    | undefined => simp [componentTypeErrors]
    | bool b => simp [componentTypeErrors]
    | num n => simp [componentTypeErrors]
    | arr xs => simp [componentTypeErrors]
    | obj fs => simp [componentTypeErrors]

/-- Closed witness for the amended C6 at the unregistered non-empty
type string `Foo`. -/
theorem claim_C6_witness :
    isComponentTypeSupported "Foo" = false ∧
    componentTypeErrors (.str "Foo") "components[0]" =
      [⟨"components[0].type", "不支持的组件类型: Foo", "UNSUPPORTED_TYPE"⟩] ∧
    (⟨"components[0].type", "不支持的组件类型: Foo", "UNSUPPORTED_TYPE"⟩ :
        ValidationError) ∈
      validateComponentConfig (.obj [("id", .str "a"), ("type", .str "Foo")])
        "components[0]" := by
  have h := (claim_C6_unsupported_type
    (.obj [("id", .str "a"), ("type", .str "Foo")]) "components[0]"
    (by decide)).1 "Foo" rfl (by decide) (by decide)
  exact h

/-- Counterexample to C8 as stated: a component whose `props` is `null`
raises no error at all, because `typeof null === "object"` passes the
source check, although `null` is not an object value. -/
theorem claim_C8_counterexample :
    validateComponentConfig
      (.obj [("id", .str "a"), ("type", .str "MButton"), ("props", .null)])
      "components[0]" = [] := by
  simp [validateComponentConfig, componentIdErrors, componentTypeErrors,
    componentPropsErrors, isComponentTypeSupported, SUPPORTED_COMPONENT_TYPES,
    getField, fieldsLookup, truthy, jsTypeof]

/-- C8 (amended): a present `props` whose `typeof` is not `"object"`
(a boolean, a number or a string) raises `INVALID_TYPE` at
`{path}.props`; `null` has `typeof "object"` and raises nothing. -/
theorem claim_C8_props_validation (c : JSValue) (path : String)
    (hobj : truthy c = true ∧ jsTypeof c = "object")
    (hp : c.getField "props" ≠ .undefined)
    (hty : jsTypeof (c.getField "props") ≠ "object") :
    componentPropsErrors (c.getField "props") path =
      [⟨path ++ ".props", "组件属性必须是对象", "INVALID_TYPE"⟩] ∧
    ⟨path ++ ".props", "组件属性必须是对象", "INVALID_TYPE"⟩ ∈
      validateComponentConfig c path ∧
    componentPropsErrors .null path = [] := by
  have herr : componentPropsErrors (c.getField "props") path =
      [⟨path ++ ".props", "组件属性必须是对象", "INVALID_TYPE"⟩] := by
    rw [componentPropsErrors, if_pos ⟨hp, hty⟩]
  refine ⟨herr, ?_, ?_⟩
  · rw [validateComponentConfig, if_pos hobj, herr]
    exact List.mem_append_left _ (List.mem_append_right _ (List.mem_singleton_self _))
  · rw [componentPropsErrors]
    simp [jsTypeof]

/-- Closed witness for the amended C8 at a boolean `props`. -/
theorem claim_C8_witness :
    componentPropsErrors (.bool true) "components[0]" =
      [⟨"components[0].props", "组件属性必须是对象", "INVALID_TYPE"⟩] ∧
    (⟨"components[0].props", "组件属性必须是对象", "INVALID_TYPE"⟩ :
        ValidationError) ∈
      validateComponentConfig
        (.obj [("id", .str "a"), ("type", .str "MButton"), ("props", .bool true)])
        "components[0]" ∧
    componentPropsErrors .null "components[0]" = [] := by
  have h := claim_C8_props_validation
    (.obj [("id", .str "a"), ("type", .str "MButton"), ("props", .bool true)])
    "components[0]" (by decide) (by decide) (by decide)
  exact h

/-- Append to an optional bindings list, `none` standing for an absent
map key: used to state how one collection step extends a key's list. -/
def appendBindings : Option (List JSValue) → List JSValue → Option (List JSValue)
  | o, [] => o
  | none, l => some l
  | some l, l' => some (l ++ l')

theorem appendBindings_nil (o : Option (List JSValue)) :
    appendBindings o [] = o := by
  cases o <;> rfl

theorem appendBindings_append (o : Option (List JSValue)) (a b : List JSValue) :
    appendBindings (appendBindings o a) b = appendBindings o (a ++ b) := by
  cases o <;> cases a <;> cases b <;> simp [appendBindings]

theorem bindingGet_push_self (m : List (JSValue × List JSValue)) (k v : JSValue) :
    bindingGet (bindingPush m k v) k = appendBindings (bindingGet m k) [v] := by
  induction m with
  | nil => simp [bindingPush, bindingGet, appendBindings]
  | cons kv rest ih =>
      obtain ⟨k₀, l⟩ := kv
      by_cases h : k₀ = k
      · subst h
        simp [bindingPush, bindingGet, appendBindings]
      · simp [bindingPush, bindingGet, h, ih]

theorem bindingGet_push_ne (m : List (JSValue × List JSValue)) (k v k' : JSValue)
    (h : k' ≠ k) : bindingGet (bindingPush m k v) k' = bindingGet m k' := by
  have hkk : ¬k = k' := fun hh => h hh.symm
  induction m with
  | nil => simp [bindingPush, bindingGet, hkk]
  | cons kv rest ih =>
      obtain ⟨k₀, l⟩ := kv
      by_cases h₀ : k₀ = k
      · subst h₀
        simp [bindingPush, bindingGet, hkk]
      · simp [bindingPush, bindingGet, h₀, ih]

theorem bindingStep_lookup (m : List (JSValue × List JSValue)) (c : JSValue)
    (src : JSValue) :
    bindingGet (bindingStep m c) src =
      appendBindings (bindingGet m src)
        (((ownBindingPairs c).filter (fun p => p.1 = src)).map Prod.snd) := by
  rw [bindingStep, ownBindingPairs]
  by_cases hdb : truthy (c.getField "dataBinding") = true
  · rw [if_pos hdb, if_pos hdb]
    by_cases hsrc : (c.getField "dataBinding").getField "source" = src
    · subst hsrc
      simp only [List.filter_cons, List.filter_nil, decide_True, List.map_cons,
        List.map_nil]
      exact bindingGet_push_self m _ _
    · rw [bindingGet_push_ne m _ _ src (fun hh => hsrc hh.symm)]
      have : (([((c.getField "dataBinding").getField "source",
          (c.getField "dataBinding").getField "field")]).filter
            (fun p => p.1 = src)).map Prod.snd = [] := by
        simp [List.filter_cons, hsrc]
      rw [this, appendBindings_nil]
  · rw [if_neg hdb, if_neg hdb]
    simp [appendBindings_nil]

theorem collectFromComponent_arr (m : List (JSValue × List JSValue))
    (c : JSValue) (cs : List JSValue) (h : c.getField "children" = .arr cs) :
    collectFromComponent m c = collectBindings (bindingStep m c) cs := by
  rw [collectFromComponent]
  split
  · rename_i cs' heq
    rw [h] at heq
    injection heq with h2
    rw [h2]
  · rename_i hne
    exact absurd h (hne cs)

theorem collectFromComponent_none (m : List (JSValue × List JSValue))
    (c : JSValue) (h : ∀ cs : List JSValue, c.getField "children" ≠ .arr cs) :
    collectFromComponent m c = bindingStep m c := by
  rw [collectFromComponent]
  simp

theorem bindingPairsOfComponent_arr (c : JSValue) (cs : List JSValue)
    (h : c.getField "children" = .arr cs) :
    bindingPairsOfComponent c = ownBindingPairs c ++ bindingPairs cs := by
  rw [bindingPairsOfComponent]
  congr 1
  split
  · rename_i cs' heq
    rw [h] at heq
    injection heq with h2
    rw [h2]
  · rename_i hne
    exact absurd h (hne cs)

theorem bindingPairsOfComponent_none (c : JSValue)
    (h : ∀ cs : List JSValue, c.getField "children" ≠ .arr cs) :
    bindingPairsOfComponent c = ownBindingPairs c := by
  rw [bindingPairsOfComponent]
  simp

theorem collect_lookup (n : Nat) :
    (∀ cs : List JSValue, sizeOf cs ≤ n → ∀ m src,
      bindingGet (collectBindings m cs) src =
        appendBindings (bindingGet m src)
          (((bindingPairs cs).filter (fun p => p.1 = src)).map Prod.snd)) ∧
    (∀ c : JSValue, sizeOf c ≤ n → ∀ m src,
      bindingGet (collectFromComponent m c) src =
        appendBindings (bindingGet m src)
          (((bindingPairsOfComponent c).filter (fun p => p.1 = src)).map
            Prod.snd)) := by
  induction n using Nat.strong_induction_on with
  | _ n ih =>
      constructor
      · intro cs hcs m src
        cases cs with
        | nil =>
            rw [collectBindings, bindingPairs]
            simp [appendBindings_nil]
        | cons c rest =>
            simp only [List.cons.sizeOf_spec] at hcs
            rw [collectBindings,
              (ih (sizeOf rest) (by omega)).1 rest (le_refl _) _ src,
              (ih (sizeOf c) (by omega)).2 c (le_refl _) m src,
              appendBindings_append, bindingPairs, List.filter_append,
              List.map_append]
      · intro c hc m src
        by_cases harr : ∃ cs, c.getField "children" = .arr cs
        · obtain ⟨cs, hcs⟩ := harr
          have hsz := JSValue.getField_arr_sizeOf hcs
          simp only [JSValue.arr.sizeOf_spec] at hsz
          rw [collectFromComponent_arr m c cs hcs,
            bindingPairsOfComponent_arr c cs hcs,
            (ih (sizeOf cs) (by omega)).1 cs (le_refl _) _ src,
            bindingStep_lookup, appendBindings_append, List.filter_append,
            List.map_append]
        · push_neg at harr
          rw [collectFromComponent_none m c harr,
            bindingPairsOfComponent_none c harr, bindingStep_lookup]

/-- C7: for every config whose `components` is an array, and every data
source key, `getDataBindings` stores under that key exactly the
`dataBinding.field` of every component in the tree (children included)
whose `dataBinding.source` equals the key, in depth-first pre-order
with children visited in array order (`bindingPairs` is that traversal;
a key with no matching component is absent). -/
theorem claim_C7_binding_collection (config : JSValue) (cs : List JSValue)
    (h : config.getField "components" = .arr cs) (src : JSValue) :
    bindingGet (getDataBindings config) src =
      (if ((bindingPairs cs).filter (fun p => p.1 = src)).map Prod.snd = []
       then none
       else some (((bindingPairs cs).filter (fun p => p.1 = src)).map
         Prod.snd)) := by
  have hg : getDataBindings config = collectBindings [] cs := by
    rw [getDataBindings, h]
  rw [hg, (collect_lookup (sizeOf cs)).1 cs (le_refl _) [] src]
  cases hfl : ((bindingPairs cs).filter (fun p => p.1 = src)).map Prod.snd with
  | nil => simp [appendBindings, bindingGet]
  | cons a l => simp [appendBindings, bindingGet]

/-- Demo page config for the binding collector: two `form` bindings
(one nested) and one `list` binding. -/
def bindingDemo : JSValue :=
  .obj [("pageCode", .str "p"), ("title", .str "t"),
    ("components", .arr
      [.obj [("id", .str "c1"), ("type", .str "MInput"),
         ("dataBinding", .obj [("source", .str "form"), ("field", .str "name")]),
         ("children", .arr
           [.obj [("id", .str "c2"), ("type", .str "MInput"),
              ("dataBinding",
                .obj [("source", .str "form"), ("field", .str "age")])]])],
       .obj [("id", .str "c3"), ("type", .str "MList"),
         ("dataBinding",
           .obj [("source", .str "list"), ("field", .str "items")])]])]

/-- Closed witness for C7: `form` collects `[name, age]` in traversal
order, `list` collects `[items]`. -/
theorem claim_C7_witness :
    bindingGet (getDataBindings bindingDemo) (.str "form") =
      some [.str "name", .str "age"] ∧
    bindingGet (getDataBindings bindingDemo) (.str "list") =
      some [.str "items"] := by
  constructor
  · rw [claim_C7_binding_collection bindingDemo _ rfl (.str "form")]
    simp [bindingPairs, bindingPairsOfComponent, ownBindingPairs, bindingDemo,
      getField, fieldsLookup, truthy]
  · rw [claim_C7_binding_collection bindingDemo _ rfl (.str "list")]
    simp [bindingPairs, bindingPairsOfComponent, ownBindingPairs, bindingDemo,
      getField, fieldsLookup, truthy]

theorem splitOnAux_ne_nil (s sep : String) (b i j : String.Pos)
    (r : List String) : String.splitOnAux s sep b i j r ≠ [] := by
  induction b, i, j, r using String.splitOnAux.induct s sep with
  | case1 b i j r h =>
      rw [String.splitOnAux, if_pos h]
      simp
  | case2 b i j r h heq i1 j1 hj ih =>
      rw [String.splitOnAux, if_neg h, if_pos heq, if_pos hj]
      exact ih
  | case3 b i j r h heq i1 j1 hj ih =>
      rw [String.splitOnAux, if_neg h, if_pos heq, if_neg hj]
      exact ih
  | case4 b i j r h heq ih =>
      rw [String.splitOnAux, if_neg h, if_neg heq]
      exact ih

theorem splitOn_ne_nil (s sep : String) : s.splitOn sep ≠ [] := by
  rw [String.splitOn]
  split
  · simp
  · exact splitOnAux_ne_nil s sep 0 0 0 []

theorem resolveLoop_false_eq_specWalk (ctx : DataContext) :
    ∀ (parts : List String) (v : JSValue),
      resolveLoop ctx parts v false = resolveSpecWalk parts v := by
  intro parts
  induction parts with
  | nil => intro v; rfl
  | cons part rest ih =>
      intro v
      rw [resolveLoop, resolveSpecWalk]
      by_cases h0 : v = .null ∨ v = .undefined
      · rw [if_pos h0, if_pos h0]
      · rw [if_neg h0, if_neg h0]
        by_cases h1 : jsTypeof v = "object"
        · rw [if_pos h1, if_pos h1, if_neg (by simp), ih]
        · rw [if_neg h1, if_neg h1]

/-- C9: `resolveBinding` never throws (it is embedded as a total
function) and coincides, on every expression string and every context,
with the plain dotted-path traversal described by the spec
(`resolveSpecWalk`): split on dots, walk segment by segment, return
`undefined` as soon as an intermediate value is `null`, `undefined` or
not an object (a missing segment yields `undefined`, which ends the
walk with `undefined`), and otherwise return the value reached at the
end of the path. -/
theorem claim_C9_resolve_binding (expression : String) (ctx : DataContext) :
    resolveBinding expression ctx =
      resolveSpecWalk (expression.splitOn ".") (contextValue ctx) := by
  rw [resolveBinding]
  cases hsp : expression.splitOn "." with
  | nil => exact absurd hsp (splitOn_ne_nil expression ".")
  | cons part rest =>
      rw [resolveLoop, resolveSpecWalk]
      have h1 : ¬(contextStart ctx = .null ∨ contextStart ctx = .undefined) := by
        simp [contextStart]
      have h2 : ¬(contextValue ctx = .null ∨ contextValue ctx = .undefined) := by
        simp [contextValue]
      rw [if_neg h1, if_neg h2,
        if_pos (show jsTypeof (contextStart ctx) = "object" from rfl),
        if_pos (show jsTypeof (contextValue ctx) = "object" from rfl)]
      by_cases hds : part = "dataSources"
      · rw [if_pos ⟨hds, rfl⟩, resolveLoop_false_eq_specWalk]
        congr 1
        rw [hds]
        rfl
      · rw [if_neg (fun hc => hds hc.1), resolveLoop_false_eq_specWalk]
        congr 1
        simp [contextStart, contextValue, getField, fieldsLookup, hds,
          Ne.symm hds]

end PageEngine
